import Mathlib

/-!
Verification of the SVD image-compression core (`src/svd.js`) against its
specification.  The JavaScript source is shallowly embedded: JS numbers are
modelled as exact rationals (`ℚ`), `Math.sqrt` and `Math.random` — the only
two irrational/impure primitives used — are passed in as explicit function
parameters (`sqrt : ℚ → ℚ`, successive `Math.random()` draws as a stream
`rng : ℕ → ℚ`), and thrown JS exceptions are modelled with `Except`.
-/

set_option maxRecDepth 1800

/-- JS runtime errors relevant to the embedded code.  `typeErrorUndefined`
models the `TypeError` thrown when indexing into `undefined` (an out-of-range
array element); `referenceErrorTDZ` models the `ReferenceError` thrown when a
`const` binding is read before its declaration (temporal dead zone);
`dimensionMismatch` is the error class the specification postulates for
malformed matrix arguments. -/
inductive JsError where
  | typeErrorUndefined
  | referenceErrorTDZ
  | dimensionMismatch
deriving DecidableEq, Repr

/-- Dense row-major matrix of JS numbers. -/
abbrev Mat := List (List ℚ)

/-- `SVD.transpose` (src/svd.js lines 269-281): `result[j][i] = matrix[i][j]`
for `i < rows = matrix.length`, `j < cols = matrix[0].length`. -/
def transpose (matrix : Mat) : Mat :=
  let rows := matrix.length
  let cols := (matrix.headD []).length
  (List.range cols).map (fun j => (List.range rows).map (fun i =>
    ((matrix.getD i []).getD j 0)))

/-- `SVD.multiplyMatrices` (src/svd.js lines 286-302), arithmetic part: entry
`(i, j)` accumulates `A[i][k] * B[k][j]` for `k < colsA = A[0].length`,
`j < colsB = B[0].length`, starting from `0`.  (The mutable accumulation
`result[i][j] += …` over the `k` loop is written as the equivalent fold.) -/
def multiplyMatrices (A B : Mat) : Mat :=
  let colsA := (A.headD []).length
  let colsB := (B.headD []).length
  A.map (fun rowA => (List.range colsB).map (fun j =>
    (List.range colsA).foldl (fun s k => s + rowA.getD k 0 * (B.getD k []).getD j 0) 0))

/-- `SVD.multiplyMatrices` including its JS failure behaviour.  The source has
no dimension check at all.  If `A` or `B` is empty, `A[0].length`/`B[0].length`
reads `.length` of `undefined` and throws a TypeError.  If `A.cols > B.rows`
(and both loop ranges are non-trivial) the inner loop reads `B[k][j]` with
`B[k] = undefined` and throws a TypeError.  In every other case — including
`A.cols < B.rows`, where the extra rows of `B` are silently ignored — the call
returns normally with the accumulated product.  No `DimensionMismatch` is ever
raised. -/
def multiplyMatricesRun (A B : Mat) : Except JsError Mat :=
  if A.length = 0 ∨ B.length = 0 then .error .typeErrorUndefined
  else if 1 ≤ (B.headD []).length ∧ B.length < (A.headD []).length then
    .error .typeErrorUndefined
  else .ok (multiplyMatrices A B)

/-- `SVD.multiplyMatrixVector` (src/svd.js lines 307-318): `result[i]`
accumulates `matrix[i][j] * vector[j]` for `j < vector.length`, starting from
`0`.  The source performs no dimension check and never throws: `matrix[i]` is
always in range (`i < matrix.length`). -/
def multiplyMatrixVector (matrix : Mat) (vector : List ℚ) : List ℚ :=
  matrix.map (fun row => (List.range vector.length).foldl
    (fun s j => s + row.getD j 0 * vector.getD j 0) 0)

/-- Modelled from the spec: "`multiply(A, B) -> A·B`" — the textbook product
with inner dimension `B.rows`, used as the reference value for the MatrixOps
contract. -/
def specMatMul (A B : Mat) : Mat :=
  A.map (fun rowA => (List.range ((B.headD []).length)).map (fun j =>
    (List.range B.length).foldl (fun s k => s + rowA.getD k 0 * (B.getD k []).getD j 0) 0))

/-- Modelled from the spec: "`multiplyVector(A, v) -> A·v`" — the textbook
matrix-vector product with inner dimension `A.cols` (the source instead runs
the inner loop over `len(v)`). -/
def specMatVec (A : Mat) (v : List ℚ) : List ℚ :=
  A.map (fun rowA => (List.range ((A.headD []).length)).foldl
    (fun s j => s + rowA.getD j 0 * v.getD j 0) 0)

/-- `Math.sqrt(v.reduce((sum, val) => sum + val * val, 0))` — the Euclidean
norm as computed in the source, with `Math.sqrt` abstracted as `sqrt`. -/
def norm2 (sqrt : ℚ → ℚ) (v : List ℚ) : ℚ :=
  sqrt (v.foldl (fun s x => s + x * x) 0)

/-- src/svd.js lines 101-105: the freshly initialized power-iteration vector,
entry `i` being `Math.random() - 0.5`; the draws for this slot occupy stream
positions `offset, offset+1, …`. -/
def initVec (rng : ℕ → ℚ) (offset n : ℕ) : List ℚ :=
  (List.range n).map (fun i => rng (offset + i) - 1/2)

/-- src/svd.js lines 107-111: normalize the initial vector, skipping the
normalization when its norm is not above the tolerance. -/
def slotInit (sqrt : ℚ → ℚ) (tol : ℚ) (rng : ℕ → ℚ) (offset n : ℕ) : List ℚ :=
  let v := initVec rng offset n
  let norm := norm2 sqrt v
  if norm > tol then v.map (fun val => val / norm) else v

/-- src/svd.js lines 126-132: the Rayleigh quotient
`v.reduce((sum, val, i) => sum + val * (Σ_{j<n} A[i][j]*v[j]), 0)` with
`n = matrix.length` of the surrounding `eigenDecomposition`. -/
def rayleigh (A : Mat) (n : ℕ) (v : List ℚ) : ℚ :=
  (List.range v.length).foldl (fun s i =>
    s + v.getD i 0 * ((List.range n).foldl (fun r j =>
      r + (A.getD i []).getD j 0 * v.getD j 0) 0)) 0

/-- src/svd.js lines 150-155, deflation: `A[i][j] -= lambda * v[i] * v[j]`
over `i, j < n = A.length`. -/
def deflate (A : Mat) (lam : ℚ) (v : List ℚ) : Mat :=
  (List.range A.length).map (fun i => (List.range A.length).map (fun j =>
    (A.getD i []).getD j 0 - lam * v.getD i 0 * v.getD j 0))

/-- src/svd.js lines 116-141, the inner power-iteration loop.  State is
`(v, lambda)`; the result carries the final `v`, `lambda` and the `converged`
flag.  `fuel` counts the remaining iterations (200 at the call site).
Breaking on `norm < tolerance` leaves `v`, `lambda` unchanged and
`converged = false`; meeting the `|newLambda - lambda| < tolerance` test sets
`lambda := newLambda` and `converged := true`; running out of iterations
leaves `converged = false`. -/
def powerIterLoop (sqrt : ℚ → ℚ) (tol : ℚ) (A : Mat) (n : ℕ) :
    ℕ → List ℚ → ℚ → (List ℚ × ℚ × Bool)
  | 0, v, lam => (v, lam, false)
  | fuel+1, v, lam =>
      let Av := multiplyMatrixVector A v
      let norm := norm2 sqrt Av
      if norm < tol then (v, lam, false)
      else
        let v2 := Av.map (fun val => val / norm)
        let newLam := rayleigh A n v2
        if |newLam - lam| < tol then (v2, newLam, true)
        else powerIterLoop sqrt tol A n fuel v2 newLam

/-- Result record of `eigenDecomposition`: `{ values, vectors }`. -/
structure EigenResult where
  values : List ℚ
  vectors : Mat
deriving DecidableEq, Repr

/-- src/svd.js lines 95-156, the outer loop of `eigenDecomposition` over
eigenpair slots.  `fuel` is the number of remaining slots (`maxEigenvalues`
at the call site), `offset` the position in the random stream (each slot
draws `n` values), `A` the current (deflated) working matrix, and
`vals`/`vecs` the eigenpairs emitted so far.  A slot whose power iteration
ends with `|lambda| < tolerance` or unconverged terminates the whole loop,
returning the pairs accumulated so far. -/
def eigenLoop (sqrt : ℚ → ℚ) (tol : ℚ) (rng : ℕ → ℚ) (n : ℕ) :
    ℕ → ℕ → Mat → List ℚ → Mat → EigenResult
  | 0, _, _, vals, vecs => ⟨vals, vecs⟩
  | fuel+1, offset, A, vals, vecs =>
      let v0 := slotInit sqrt tol rng offset n
      let r := powerIterLoop sqrt tol A n 200 v0 0
      if |r.2.1| < tol ∨ r.2.2 = false then ⟨vals, vecs⟩
      else eigenLoop sqrt tol rng n fuel (offset + n) (deflate A r.2.1 r.1)
        (vals ++ [r.2.1]) (vecs ++ [r.1])

/-- `SVD.eigenDecomposition` (src/svd.js lines 85-159).  `matrix` is copied in
the source; the copy is the identity here.  `maxIterations = 200` is baked
into `powerIterLoop`'s fuel. -/
def eigenDecomposition (sqrt : ℚ → ℚ) (rng : ℕ → ℚ) (matrix : Mat)
    (maxEigenvalues : ℕ) (tolerance : ℚ) : EigenResult :=
  eigenLoop sqrt tolerance rng matrix.length maxEigenvalues 0 matrix [] []

/-- Result record of `SVD.decompose`: `{ U, sigma, V_T }`. -/
structure SVDResult where
  U : Mat
  sigma : List ℚ
  V_T : Mat
deriving DecidableEq, Repr

/-- src/svd.js line 24: `tolerance = isLargeMatrix ? 1e-8 : 1e-10`, where
`isLargeMatrix = m * n > 100000`. -/
def decomposeTol (m n : ℕ) : ℚ :=
  if 100000 < m * n then 1/10^8 else 1/10^10

/-- src/svd.js line 23: `maxEigenvalues = isLargeMatrix ? min(minDim, 50)
: min(minDim, 100)`. -/
def decomposeMaxEig (m n : ℕ) : ℕ :=
  if 100000 < m * n then min (min m n) 50 else min (min m n) 100

/-- src/svd.js lines 52-54: `sigma.map((val, idx) => ({val, idx}))` — the
(value, index) pairs over the positions of `sigma`. -/
def indexPairs (sigma : List ℚ) : List (ℚ × ℕ) :=
  (List.range sigma.length).map (fun idx => (sigma.getD idx 0, idx))

/-- src/svd.js lines 52-54: `.sort((a, b) => b.val - a.val).map(item => item.idx)`.
`Array.prototype.sort` is stable and the comparator orders by value
descending, which is exactly a stable merge sort with the Boolean relation
"left value ≥ right value". -/
def sortIndicesDesc (sigma : List ℚ) : List ℕ :=
  ((indexPairs sigma).mergeSort (fun a b => decide (b.1 ≤ a.1))).map (fun p => p.2)

/-- `SVD.decompose` (src/svd.js lines 13-80).  Notes kept faithful to the
source: the eigen-decomposition of `A * Aᵗ` (lines 28 and 42, `eigenU`) is
computed but never read afterwards — it only consumes further random draws,
which the abstract stream `rng` absorbs — so it is omitted here; `sigma[i]`
for an index `i` beyond the eigenpair count is `undefined` in JS, and
`undefined > tolerance` is `false`, which `List.getD _ _ 0` (with
`0 > tolerance` false) reproduces. -/
def decompose (sqrt : ℚ → ℚ) (rng : ℕ → ℚ) (matrix : Mat) : SVDResult :=
  let A := matrix
  let m := A.length
  let n := (A.headD []).length
  let tol := decomposeTol m n
  let AtA := multiplyMatrices (transpose A) A
  let eigenV := eigenDecomposition sqrt rng AtA (decomposeMaxEig m n) tol
  let sigma := eigenV.values.map (fun val => sqrt (max 0 val))
  let indices := sortIndicesDesc sigma
  let sortedSigma := indices.map (fun i => sigma.getD i 0)
  let V_T := indices.map (fun i => eigenV.vectors.getD i [])
  let Urows := (List.range (min m n)).map (fun i =>
    if sortedSigma.getD i 0 > tol then
      (multiplyMatrixVector A (V_T.getD i [])).map (fun val => val / sortedSigma.getD i 0)
    else List.replicate m 0)
  { U := transpose Urows, sigma := sortedSigma, V_T := V_T }

/-- `Math.round` on a JS number: round half toward positive infinity. -/
def jsRound (x : ℚ) : ℤ := ⌊x + 1/2⌋

/-- src/svd.js lines 189-201 / 246-258, the per-entry quantization applied
after summation: clamp to `[0, 255]`, then `Math.round`. -/
def quantize (x : ℚ) : ℚ :=
  let v1 := if x < 0 then 0 else x
  let v2 := if v1 > 255 then 255 else v1
  (jsRound v2 : ℚ)

/-- Accumulated entry `(i, j)` of the truncated reconstruction: the source
adds `sigma[k] * U[i][k] * V_T[k][j]` into `channel[i][j]` for each retained
`k`; the outer-`k` mutable accumulation equals this per-entry fold. -/
def reconstructEntry (svd : SVDResult) (cnt i j : ℕ) : ℚ :=
  (List.range cnt).foldl (fun s k =>
    s + svd.sigma.getD k 0 * (svd.U.getD i []).getD k 0 * (svd.V_T.getD k []).getD j 0) 0

/-- The `m × n` matrix of quantized truncated-reconstruction entries, with
`m = U.length` and `n = V_T[0].length` as read off in the source. -/
def reconstructClamped (svd : SVDResult) (cnt : ℕ) : Mat :=
  (List.range svd.U.length).map (fun i =>
    (List.range ((svd.V_T.headD []).length)).map (fun j =>
      quantize (reconstructEntry svd cnt i j)))

/-- src/svd.js line 176: `retainCount = Math.max(1, Math.ceil(sigma.length *
percent))`. -/
def retainCount (len : ℕ) (percent : ℚ) : ℕ :=
  max 1 (⌈(len : ℚ) * percent⌉.toNat)

/-- `SVD.getCompressData` (src/svd.js lines 167-204): sum the leading
`retainCount` rank-1 terms — the loop guard `k < retainCount && k <
sigma.length` makes the term count their minimum — then clamp and round every
entry. -/
def getCompressData (svd : SVDResult) (percent : ℚ) : Mat :=
  reconstructClamped svd (min (retainCount svd.sigma.length percent) svd.sigma.length)

/-- src/svd.js lines 228-243, the component-count part of `getCompressSum`:
starting from `current`, each iteration adds `sigma[i]` and counts the
component, breaking once the running sum exceeds `target` (the test runs
after the component was already counted and accumulated). -/
def usedCountAux (sigma : List ℚ) (target current : ℚ) : ℕ :=
  match sigma with
  | [] => 0
  | s :: rest =>
      let c := current + s
      if c > target then 1 else 1 + usedCountAux rest target c

/-- Result record of `getCompressSum`: `{ matrix, usedSingularValues }`. -/
structure CompressSumResult where
  matrix : Mat
  usedSingularValues : ℕ
deriving DecidableEq, Repr

/-- `SVD.getCompressSum` (src/svd.js lines 212-264): `totalSum` is
`sigma.reduce((sum, sig) => sum + sig, 0)`, `targetSum = totalSum * percent`;
the loop accumulates rank-1 terms for exactly the counted components, then
clamps and rounds. -/
def getCompressSum (svd : SVDResult) (percent : ℚ) : CompressSumResult :=
  let totalSum := svd.sigma.foldl (fun s sig => s + sig) 0
  let targetSum := totalSum * percent
  let used := usedCountAux svd.sigma targetSum 0
  { matrix := reconstructClamped svd used, usedSingularValues := used }

/-- A JS `ImageData`: interleaved RGBA entries (4 per pixel). -/
structure ImageData where
  width : ℕ
  height : ℕ
  data : List ℚ
deriving DecidableEq, Repr

/-- `ImageProcessor.detectImageType` (src/svd.js lines 330-355).
`sampleStep = max(1, Math.floor(data.length / 4 / 1000))`; the `for` loop
visits `i = 4 * sampleStep * t` for every `t` with `i < data.length`, i.e.
`ceil(len / (4*step))` samples; a sample is grayscale when its R, G, B values
pairwise differ by at most 5.  Returns "grayscale" when the sampled
grayscale fraction is at least 0.95 (an empty buffer gives a `0/0 = NaN`
ratio in JS and a `0` ratio here; both fail the `>= 0.95` test). -/
def detectImageType (img : ImageData) : String :=
  let len := img.data.length
  let step := max 1 (len / 4000)
  let samples := (len + 4 * step - 1) / (4 * step)
  let totalPixels := samples
  let grayscalePixels := ((List.range samples).filter (fun t =>
    let i := 4 * step * t
    let r := img.data.getD i 0
    let g := img.data.getD (i+1) 0
    let b := img.data.getD (i+2) 0
    decide (|r - g| ≤ 5 ∧ |g - b| ≤ 5 ∧ |r - b| ≤ 5))).length
  if (grayscalePixels : ℚ) / (totalPixels : ℚ) ≥ 95/100 then "grayscale" else "rgb"

/-- Channel matrix `c` (0 = R, 1 = G, 2 = B) extracted from a pixel buffer:
`matrix[y][x] = data[(y*width + x)*4 + c]` (src/svd.js lines 370-375 and
391-398). -/
def extractChannel (img : ImageData) (c : ℕ) : Mat :=
  (List.range img.height).map (fun y => (List.range img.width).map (fun x =>
    img.data.getD ((y * img.width + x) * 4 + c) 0))

/-- The `matrices` part of `ImageProcessor.imageToMatrix` (src/svd.js lines
362-407): one gray channel (taken from the red component) or three RGB
channels, chosen by `detectImageType`. -/
inductive ChannelMatrices where
  | gray (g : Mat)
  | rgb (r g b : Mat)
deriving DecidableEq, Repr

/-- `ImageProcessor.imageToMatrix` (src/svd.js lines 362-407). -/
def imageToMatrix (img : ImageData) : ChannelMatrices :=
  if detectImageType img = "grayscale" then .gray (extractChannel img 0)
  else .rgb (extractChannel img 0) (extractChannel img 1) (extractChannel img 2)

/-- src/svd.js lines 424 and 437-439: `Math.max(0, Math.min(255,
Math.round(value)))` — round first, then clamp. -/
def clampRound255 (x : ℚ) : ℚ :=
  max 0 (min 255 (jsRound x : ℚ))

/-- `ImageProcessor.matrixToImage`, grayscale arm (src/svd.js lines 418-430):
each pixel's R, G and B receive the clamped rounded gray value, alpha 255. -/
def matrixToImageGray (g : Mat) (width height : ℕ) : ImageData :=
  ⟨width, height,
    (List.range height).flatMap (fun y => (List.range width).flatMap (fun x =>
      let v := clampRound255 ((g.getD y []).getD x 0)
      [v, v, v, 255]))⟩

/-- `ImageProcessor.matrixToImage`, RGB arm (src/svd.js lines 431-443). -/
def matrixToImageRGB (r g b : Mat) (width height : ℕ) : ImageData :=
  ⟨width, height,
    (List.range height).flatMap (fun y => (List.range width).flatMap (fun x =>
      [clampRound255 ((r.getD y []).getD x 0),
       clampRound255 ((g.getD y []).getD x 0),
       clampRound255 ((b.getD y []).getD x 0), 255]))⟩

/-- `Number.prototype.toFixed(2)` picks the multiple of 1/100 nearest to the
value (ties toward the larger); the rendered two-decimal string is modelled
by the rational it denotes. -/
def toFixed2 (x : ℚ) : ℚ := (jsRound (x * 100) : ℚ) / 100

/-- Return record of `ImageProcessor.compressImage` (src/svd.js lines
518-525 / 589-596).  `compressionRate` models the source's
`compressionRatio: dataCompressionRatio.toFixed(2)` field by the rational
value the formatted string denotes. -/
structure CompressOutput where
  imageData : ImageData
  retainedSingularValues : ℤ
  totalSingularValues : ℤ
  compressionRate : ℚ
  compressionMethod : String
  imageType : String
deriving DecidableEq, Repr

/-- `SVD.getCompressData` including its JS failure behaviour: line 170 reads
`V_T[0].length`, which throws a TypeError when `decompose` returned no
eigenpairs (`V_T = []`, so `V_T[0]` is `undefined`); otherwise every access
the call makes is defined (for a `decompose` result, `sigma` and `V_T` have
equal length) and it returns the pure reconstruction. -/
def getCompressDataRun (svd : SVDResult) (percent : ℚ) : Except JsError Mat :=
  if svd.V_T.length = 0 then .error .typeErrorUndefined
  else .ok (getCompressData svd percent)

/-- `SVD.getCompressSum` including its JS failure behaviour: line 215 reads
`V_T[0].length` and throws a TypeError when `V_T = []`, exactly as in
`getCompressDataRun`. -/
def getCompressSumRun (svd : SVDResult) (percent : ℚ) :
    Except JsError CompressSumResult :=
  if svd.V_T.length = 0 then .error .typeErrorUndefined
  else .ok (getCompressSum svd percent)

/-- `ImageProcessor.compressImage` (src/svd.js lines 455-598).  `ratePercent`
is the 0-100 `compressionRatio` argument; `method` selects the truncation
policy; `rngs c` is the random stream consumed by the `c`-th `decompose`
call (the source draws all streams from the one ambient `Math.random`; the
split into per-call streams is harmless because every claim quantifies over
arbitrary streams).  In the grayscale branch with `method ≠ "sum"` the
source first runs `SVD.getCompressData` (line 494) — which itself throws a
TypeError if the decomposition produced no eigenpairs — and only then, on
line 495, reads `totalSingularValues` before its `const` declaration (line
509), throwing a `ReferenceError` (temporal dead zone), so this arm never
reaches the return statement either way.  In the RGB branch the channels
are processed in order R, G, B and an exception from any per-channel call
aborts the whole compression.  Progress callbacks and the two `setTimeout`
yields are observational only and are not modelled. -/
def compressImage (sqrt : ℚ → ℚ) (rngs : ℕ → ℕ → ℚ) (img : ImageData)
    (ratePercent : ℚ) (method : String) : Except JsError CompressOutput :=
  let m := img.height
  let n := img.width
  let percent := ratePercent / 100
  match imageToMatrix img with
  | .gray grayMat =>
      let svdResult := decompose sqrt (rngs 0) grayMat
      if method = "sum" then
        match getCompressSumRun svdResult percent with
        | .error e => .error e
        | .ok compressedResult =>
            let compressedMatrix := compressedResult.matrix
            let actualRetainedValues : ℤ := compressedResult.usedSingularValues
            let compressedImageData :=
              matrixToImageGray compressedMatrix img.width img.height
            let totalSingularValues : ℤ := svdResult.sigma.length
            let k := actualRetainedValues
            let dataCompressionRate : ℚ :=
              (m * n : ℚ) / ((k : ℚ) * ((m : ℚ) + n + 1))
            .ok { imageData := compressedImageData,
                  retainedSingularValues := actualRetainedValues,
                  totalSingularValues := totalSingularValues,
                  compressionRate := toFixed2 dataCompressionRate,
                  compressionMethod := method,
                  imageType := "grayscale" }
      else
        match getCompressDataRun svdResult percent with
        | .error e => .error e
        | .ok _ =>
            .error .referenceErrorTDZ
  | .rgb rMat gMat bMat =>
      let pick := fun (svd : SVDResult) =>
        if method = "sum" then
          match getCompressSumRun svd percent with
          | .error e => Except.error e
          | .ok res => Except.ok (res.matrix, (res.usedSingularValues : ℤ))
        else
          match getCompressDataRun svd percent with
          | .error e => Except.error e
          | .ok mat => Except.ok (mat, ⌈(svd.sigma.length : ℚ) * percent⌉)
      let svdR := decompose sqrt (rngs 0) rMat
      match pick svdR with
      | .error e => .error e
      | .ok pr =>
        let svdG := decompose sqrt (rngs 1) gMat
        match pick svdG with
        | .error e => .error e
        | .ok pg =>
          let svdB := decompose sqrt (rngs 2) bMat
          match pick svdB with
          | .error e => .error e
          | .ok pb =>
            let totalRetainedValues : ℤ := pr.2 + pg.2 + pb.2
            let totalSingularValues : ℤ :=
              (svdR.sigma.length : ℤ) + svdG.sigma.length + svdB.sigma.length
            let compressedImageData :=
              matrixToImageRGB pr.1 pg.1 pb.1 img.width img.height
            let avgRetainedValues := jsRound ((totalRetainedValues : ℚ) / 3)
            let avgTotalValues := jsRound ((totalSingularValues : ℚ) / 3)
            let k := avgRetainedValues
            let dataCompressionRate : ℚ :=
              (m * n : ℚ) / ((k : ℚ) * ((m : ℚ) + n + 1))
            .ok { imageData := compressedImageData,
                  retainedSingularValues := avgRetainedValues,
                  totalSingularValues := avgTotalValues,
                  compressionRate := toFixed2 dataCompressionRate,
                  compressionMethod := method,
                  imageType := "rgb" }

/-- `Array(m).fill().map(() => Array(n).fill(0))` — the freshly allocated
channel accumulator. -/
def channelZeros (m n : ℕ) : Mat :=
  (List.range m).map (fun _ => List.replicate n 0)

/-- A single JS array write `M[i][j] = x`. -/
def setEntry (M : Mat) (i j : ℕ) (x : ℚ) : Mat :=
  M.set i ((M.getD i []).set j x)

/-- Explicit-store version of `getCompressData` for the frame property: the
store is the pair (svdResult, channel) and each mutable statement of the
source becomes a store update.  Every write in src/svd.js lines 167-204
(`channel[i][j] += …`, line 183, and `channel[i][j] = Math.round(value)`,
line 199) targets the freshly allocated channel component; `U`, `sigma` and
`V_T` are only read. -/
def getCompressDataSt (svd : SVDResult) (percent : ℚ) : SVDResult × Mat :=
  let m := svd.U.length
  let n := (svd.V_T.headD []).length
  let cnt := min (retainCount svd.sigma.length percent) svd.sigma.length
  let st0 : SVDResult × Mat := (svd, channelZeros m n)
  let st1 := (List.range cnt).foldl (fun st k =>
    (List.range m).foldl (fun st i => (List.range n).foldl (fun st j =>
      (st.1, setEntry st.2 i j ((st.2.getD i []).getD j 0 +
        st.1.sigma.getD k 0 * (st.1.U.getD i []).getD k 0 *
        (st.1.V_T.getD k []).getD j 0))) st) st) st0
  (List.range m).foldl (fun st i => (List.range n).foldl (fun st j =>
    (st.1, setEntry st.2 i j (quantize ((st.2.getD i []).getD j 0)))) st) st1

/-- Explicit-store version of `getCompressSum` (src/svd.js lines 212-264),
analogous to `getCompressDataSt`: the component count comes from the running
sum and all writes target the fresh channel. -/
def getCompressSumSt (svd : SVDResult) (percent : ℚ) : SVDResult × Mat × ℕ :=
  let m := svd.U.length
  let n := (svd.V_T.headD []).length
  let totalSum := svd.sigma.foldl (fun s sig => s + sig) 0
  let used := usedCountAux svd.sigma (totalSum * percent) 0
  let st0 : SVDResult × Mat := (svd, channelZeros m n)
  let st1 := (List.range used).foldl (fun st k =>
    (List.range m).foldl (fun st i => (List.range n).foldl (fun st j =>
      (st.1, setEntry st.2 i j ((st.2.getD i []).getD j 0 +
        st.1.sigma.getD k 0 * (st.1.U.getD i []).getD k 0 *
        (st.1.V_T.getD k []).getD j 0))) st) st) st0
  let st2 := (List.range m).foldl (fun st i => (List.range n).foldl (fun st j =>
    (st.1, setEntry st.2 i j (quantize ((st.2.getD i []).getD j 0)))) st) st1
  (st2.1, st2.2, used)

/-! ### Helper lemmas -/

/-- Every quantized entry is an integer in the pixel range. -/
theorem quantize_spec (x : ℚ) :
    ∃ z : ℤ, quantize x = (z : ℚ) ∧ 0 ≤ quantize x ∧ quantize x ≤ 255 := by
  by_cases hx : x < 0
  · refine ⟨0, ?_, ?_, ?_⟩ <;> simp [quantize, jsRound, hx] <;> norm_num
  · by_cases hx2 : x > 255
    · refine ⟨255, ?_, ?_, ?_⟩ <;> simp [quantize, jsRound, hx, hx2] <;> norm_num
    · have h0 : ¬ (0:ℚ) > 255 := by norm_num
      have heq : quantize x = ((⌊x + 1/2⌋ : ℤ) : ℚ) := by
        simp [quantize, jsRound, hx, hx2]
      refine ⟨⌊x + 1/2⌋, heq, ?_, ?_⟩
      · rw [heq]
        have : (0 : ℤ) ≤ ⌊x + 1/2⌋ :=
          Int.le_floor.mpr (by push_cast; linarith [not_lt.mp hx])
        exact_mod_cast this
      · rw [heq]
        have hlt : ⌊x + 1/2⌋ < 256 :=
          Int.floor_lt.mpr (by push_cast; linarith [not_lt.mp hx2])
        have hle : ⌊x + 1/2⌋ ≤ 255 := by omega
        exact_mod_cast hle

/-- Entries of any clamped reconstruction are integers in `[0, 255]`. -/
theorem reconstructClamped_entries (svd : SVDResult) (cnt : ℕ) :
    ∀ row ∈ reconstructClamped svd cnt, ∀ x ∈ row,
      ∃ z : ℤ, x = (z : ℚ) ∧ 0 ≤ x ∧ x ≤ 255 := by
  intro row hrow x hx
  unfold reconstructClamped at hrow
  obtain ⟨i, _, hi⟩ := List.mem_map.mp hrow
  subst hi
  obtain ⟨j, _, hj⟩ := List.mem_map.mp hx
  subst hj
  exact quantize_spec _

/-- A fold whose step preserves the first component of the state leaves it
unchanged. -/
theorem foldl_fst_invariant {α β γ : Type} (g : γ × β → α → γ × β)
    (h : ∀ st x, (g st x).1 = st.1) :
    ∀ (l : List α) (st : γ × β), (l.foldl g st).1 = st.1 := by
  intro l
  induction l with
  | nil => intro st; rfl
  | cons a t ih => intro st; rw [List.foldl_cons, ih, h]

/-- `usedCountAux` is monotone in the target threshold. -/
theorem usedCountAux_mono (sigma : List ℚ) :
    ∀ (t1 t2 c : ℚ), t1 ≤ t2 →
      usedCountAux sigma t1 c ≤ usedCountAux sigma t2 c := by
  induction sigma with
  | nil => intro t1 t2 c _; exact le_rfl
  | cons s rest ih =>
      intro t1 t2 c h12
      simp only [usedCountAux]
      split
      · split
        · exact le_rfl
        · exact Nat.le_add_right 1 _
      · rename_i h1
        split
        · rename_i h2
          exact absurd (lt_of_le_of_lt h12 h2) h1
        · exact Nat.add_le_add_left (ih t1 t2 (c + s) h12) 1

/-- A left fold of addition starting from a nonnegative value over
nonnegative summands is nonnegative. -/
theorem foldl_add_nonneg (l : List ℚ) :
    ∀ c : ℚ, 0 ≤ c → (∀ s ∈ l, 0 ≤ s) →
      0 ≤ l.foldl (fun a b => a + b) c := by
  induction l with
  | nil => intro c hc _; exact hc
  | cons s rest ih =>
      intro c hc hall
      rw [List.foldl_cons]
      exact ih (c + s) (by linarith [hall s (List.mem_cons_self s rest)])
        (fun x hx => hall x (List.mem_cons_of_mem s hx))

/-! ### Claim C2 -/

/-- C2: for every `SVDResult` whose `sigma` has length `L ≥ 1` and every
`percent ∈ [0,1]`, `SVD.getCompressData` sums exactly
`max(1, ceil(L * percent))` leading rank-1 terms before clamping (the loop's
`min` with `L` never cuts the count); `percent = 0` still retains exactly 1
component, and any `percent ≥ 1` retains all `L` components. -/
theorem getCompressData_exact_retain_count (svd : SVDResult) (percent : ℚ)
    (hL : 1 ≤ svd.sigma.length) (h0 : 0 ≤ percent) (h1 : percent ≤ 1) :
    getCompressData svd percent
      = reconstructClamped svd (retainCount svd.sigma.length percent)
    ∧ (percent = 0 → retainCount svd.sigma.length percent = 1)
    ∧ (∀ q : ℚ, 1 ≤ q →
        min (retainCount svd.sigma.length q) svd.sigma.length
          = svd.sigma.length) := by
  refine ⟨?_, ?_, ?_⟩
  · unfold getCompressData
    congr 1
    have hceil : ⌈(svd.sigma.length : ℚ) * percent⌉ ≤ (svd.sigma.length : ℤ) := by
      apply Int.ceil_le.mpr
      push_cast
      nlinarith [@Nat.cast_nonneg ℚ _ svd.sigma.length]
    have htn : (⌈(svd.sigma.length : ℚ) * percent⌉).toNat ≤ svd.sigma.length := by
      omega
    exact Nat.min_eq_left (max_le hL htn)
  · intro hp
    simp [retainCount, hp]
  · intro q hq
    apply Nat.min_eq_right
    apply le_max_of_le_right
    have hx : (svd.sigma.length : ℚ) ≤ (svd.sigma.length : ℚ) * q :=
      le_mul_of_one_le_right (Nat.cast_nonneg _) hq
    have hceil : (svd.sigma.length : ℤ) ≤ ⌈(svd.sigma.length : ℚ) * q⌉ := by
      calc (svd.sigma.length : ℤ)
          = ⌈((svd.sigma.length : ℤ) : ℚ)⌉ := (Int.ceil_intCast _).symm
        _ ≤ ⌈(svd.sigma.length : ℚ) * q⌉ := Int.ceil_le_ceil (by push_cast; exact hx)
    omega

/-- C2 witness: the theorem applied to a concrete one-component result at
`percent = 1/2`. -/
theorem getCompressData_exact_retain_count_witness :
    (1 ≤ ([1] : List ℚ).length ∧ 0 ≤ (1:ℚ)/2 ∧ (1:ℚ)/2 ≤ 1)
    ∧ (getCompressData ⟨[[1]], [1], [[1]]⟩ (1/2)
        = reconstructClamped ⟨[[1]], [1], [[1]]⟩ (retainCount ([1] : List ℚ).length (1/2))
      ∧ ((1:ℚ)/2 = 0 → retainCount ([1] : List ℚ).length (1/2) = 1)
      ∧ (∀ q : ℚ, 1 ≤ q →
          min (retainCount ([1] : List ℚ).length q) ([1] : List ℚ).length
            = ([1] : List ℚ).length)) :=
  ⟨⟨by norm_num, by norm_num, by norm_num⟩,
    getCompressData_exact_retain_count ⟨[[1]], [1], [[1]]⟩ (1/2)
      (by norm_num) (by norm_num) (by norm_num)⟩

/-! ### Claim C4 -/

/-- C4: every entry of any matrix returned by `SVD.getCompressData` or
`SVD.getCompressSum` is an integer lying in `[0, 255]`: after summation each
entry is clamped to `[0, 255]` and rounded to the nearest integer. -/
theorem compress_entries_integer_in_range (svd : SVDResult) (percent : ℚ) :
    (∀ row ∈ getCompressData svd percent, ∀ x ∈ row,
        ∃ z : ℤ, x = (z : ℚ) ∧ 0 ≤ x ∧ x ≤ 255)
    ∧ (∀ row ∈ (getCompressSum svd percent).matrix, ∀ x ∈ row,
        ∃ z : ℤ, x = (z : ℚ) ∧ 0 ≤ x ∧ x ≤ 255) := by
  constructor
  · intro row hrow
    exact reconstructClamped_entries svd _ row hrow
  · intro row hrow
    exact reconstructClamped_entries svd _ row hrow

/-- C4 witness: the theorem applied to a concrete decomposition result and
`percent = 1`, evaluated at the single entry of each output. -/
theorem compress_entries_integer_in_range_witness :
    ((200 : ℚ) ∈ [(200 : ℚ)] ∧ [(200 : ℚ)] ∈ getCompressData ⟨[[1]], [200], [[1]]⟩ 1)
    ∧ (∃ z : ℤ, (200 : ℚ) = (z : ℚ) ∧ 0 ≤ (200 : ℚ) ∧ (200 : ℚ) ≤ 255) := by
  have hmat : getCompressData ⟨[[1]], [200], [[1]]⟩ 1 = [[200]] := by
    with_unfolding_all rfl
  have hmem : [(200 : ℚ)] ∈ getCompressData ⟨[[1]], [200], [[1]]⟩ 1 := by
    rw [hmat]; exact List.mem_singleton.mpr rfl
  refine ⟨⟨List.mem_singleton.mpr rfl, hmem⟩, ?_⟩
  exact (compress_entries_integer_in_range ⟨[[1]], [200], [[1]]⟩ 1).1
    [(200 : ℚ)] hmem (200 : ℚ) (List.mem_singleton.mpr rfl)

/-! ### Claim C7 -/

/-- C7: for a fixed `SVDResult` (whose singular values are nonnegative, as
the `SVDResult` invariant guarantees), the `usedSingularValues` count
returned by `SVD.getCompressSum` is monotonically non-decreasing in
`percent` over `[0, 1]`. -/
theorem getCompressSum_count_monotone (svd : SVDResult) (p1 p2 : ℚ)
    (hsig : ∀ s ∈ svd.sigma, 0 ≤ s)
    (h0 : 0 ≤ p1) (h12 : p1 ≤ p2) (h1 : p2 ≤ 1) :
    (getCompressSum svd p1).usedSingularValues
      ≤ (getCompressSum svd p2).usedSingularValues := by
  have htot : 0 ≤ svd.sigma.foldl (fun s sig => s + sig) 0 :=
    foldl_add_nonneg svd.sigma 0 le_rfl hsig
  have htarget : svd.sigma.foldl (fun s sig => s + sig) 0 * p1
      ≤ svd.sigma.foldl (fun s sig => s + sig) 0 * p2 :=
    mul_le_mul_of_nonneg_left h12 htot
  simpa [getCompressSum] using usedCountAux_mono svd.sigma _ _ 0 htarget

/-- C7 witness: the theorem applied to a concrete two-component result at
`percent` values 1/4 and 3/4. -/
theorem getCompressSum_count_monotone_witness :
    ((∀ s ∈ [(3 : ℚ), 1], 0 ≤ s) ∧ (0 ≤ (1:ℚ)/4) ∧ ((1:ℚ)/4 ≤ 3/4) ∧ ((3:ℚ)/4 ≤ 1))
    ∧ (getCompressSum ⟨[[1, 0], [0, 1]], [3, 1], [[1, 0], [0, 1]]⟩ (1/4)).usedSingularValues
      ≤ (getCompressSum ⟨[[1, 0], [0, 1]], [3, 1], [[1, 0], [0, 1]]⟩ (3/4)).usedSingularValues :=
  ⟨⟨by intro s hs; simp only [List.mem_cons, List.not_mem_nil, or_false] at hs; rcases hs with h | h <;> rw [h] <;> norm_num,
    by norm_num, by norm_num, by norm_num⟩,
    getCompressSum_count_monotone ⟨[[1, 0], [0, 1]], [3, 1], [[1, 0], [0, 1]]⟩ (1/4) (3/4)
      (by intro s hs; simp only [List.mem_cons, List.not_mem_nil, or_false] at hs; rcases hs with h | h <;> rw [h] <;> norm_num)
      (by norm_num) (by norm_num) (by norm_num)⟩

/-! ### Claim C10 -/

/-- C10: neither `SVD.getCompressData` nor `SVD.getCompressSum` modifies its
`svdResult` argument: in the explicit-store reading of the two functions,
where every array write of the source is a store update, the `SVDResult`
component of the final store is the input one (so every entry of `U`,
`sigma` and `V_T` is unchanged), and a result can therefore be recomputed
from the returned store at any other `percent` with the same outcome. -/
theorem compress_functions_preserve_svdResult (svd : SVDResult) (p1 p2 : ℚ) :
    (getCompressDataSt svd p1).1 = svd
    ∧ (getCompressSumSt svd p1).1 = svd
    ∧ (getCompressDataSt ((getCompressDataSt svd p1).1) p2).2
        = (getCompressDataSt svd p2).2
    ∧ (getCompressSumSt ((getCompressSumSt svd p1).1) p2).2
        = (getCompressSumSt svd p2).2 := by
  have hstep2 : ∀ (m n : ℕ) (f : SVDResult × Mat → ℕ → ℕ → ℚ) (st : SVDResult × Mat),
      (((List.range m).foldl (fun st i => (List.range n).foldl (fun st j =>
        (st.1, setEntry st.2 i j (f st i j))) st) st)).1 = st.1 := by
    intro m n f st
    apply foldl_fst_invariant
    intro st i
    apply foldl_fst_invariant
    intro st j
    rfl
  have hdata : ∀ q : ℚ, (getCompressDataSt svd q).1 = svd := by
    intro q
    unfold getCompressDataSt
    rw [hstep2]
    apply foldl_fst_invariant
    intro st k
    exact hstep2 _ _ _ st
  have hsum : ∀ q : ℚ, (getCompressSumSt svd q).1 = svd := by
    intro q
    unfold getCompressSumSt
    rw [hstep2]
    apply foldl_fst_invariant
    intro st k
    exact hstep2 _ _ _ st
  exact ⟨hdata p1, hsum p1, by rw [hdata p1], by rw [hsum p1]⟩

/-! ### Claim C8 -/

/-- C8 counterexample: `A = [[1]]`, `B = [[2],[3]]` have `A.cols = 1 ≠ 2 =
B.rows`, yet `SVD.multiplyMatrices` returns normally (the extra row of `B`
is silently ignored), so the claimed `DimensionMismatch` failure does not
occur. -/
theorem multiplyMatrices_no_dimension_check :
    (([[(1 : ℚ)]] : Mat).headD []).length ≠ ([[(2 : ℚ)], [(3 : ℚ)]] : Mat).length
    ∧ multiplyMatricesRun [[(1 : ℚ)]] [[(2 : ℚ)], [(3 : ℚ)]] = .ok [[2]] := by
  constructor
  · with_unfolding_all decide
  · with_unfolding_all rfl

/-- C8 (amended): the matrix primitives perform no dimension check and never
raise `DimensionMismatch`; on well-dimensioned inputs `multiplyMatrices`
returns `A·B` without error and `multiplyMatrixVector` returns `A·v`. -/
theorem matrix_primitives_correct_when_well_dimensioned (A B M : Mat) (v : List ℚ)
    (hA : A ≠ []) (hB : B ≠ [])
    (hdim : (A.headD []).length = B.length)
    (hv : v.length = (M.headD []).length) :
    multiplyMatricesRun A B = .ok (specMatMul A B)
    ∧ multiplyMatrixVector M v = specMatVec M v := by
  constructor
  · unfold multiplyMatricesRun
    rw [if_neg, if_neg]
    · unfold multiplyMatrices specMatMul
      rw [hdim]
    · rw [hdim]
      rintro ⟨-, hlt⟩
      exact lt_irrefl _ hlt
    · rintro (h | h)
      · exact hA (List.length_eq_zero.mp h)
      · exact hB (List.length_eq_zero.mp h)
  · unfold multiplyMatrixVector specMatVec
    rw [hv]

/-- C8 witness for the amended theorem: concrete well-dimensioned inputs. -/
theorem matrix_primitives_correct_witness :
    (([[(1 : ℚ), 2]] : Mat) ≠ [] ∧ ([[(5 : ℚ)], [(7 : ℚ)]] : Mat) ≠ []
      ∧ (([[(1 : ℚ), 2]] : Mat).headD []).length = ([[(5 : ℚ)], [(7 : ℚ)]] : Mat).length
      ∧ ([(1 : ℚ), 1] : List ℚ).length = (([[(4 : ℚ), 6]] : Mat).headD []).length)
    ∧ (multiplyMatricesRun [[(1 : ℚ), 2]] [[(5 : ℚ)], [(7 : ℚ)]]
        = .ok (specMatMul [[(1 : ℚ), 2]] [[(5 : ℚ)], [(7 : ℚ)]])
      ∧ multiplyMatrixVector [[(4 : ℚ), 6]] [(1 : ℚ), 1]
        = specMatVec [[(4 : ℚ), 6]] [(1 : ℚ), 1]) :=
  ⟨⟨by simp, by simp, by with_unfolding_all rfl, by with_unfolding_all rfl⟩,
    matrix_primitives_correct_when_well_dimensioned
      [[(1 : ℚ), 2]] [[(5 : ℚ)], [(7 : ℚ)]] [[(4 : ℚ), 6]] [(1 : ℚ), 1]
      (by simp) (by simp) (by with_unfolding_all rfl) (by with_unfolding_all rfl)⟩

/-! ### Claim C3 -/

/-- Full characterization of the stopping behaviour of the accumulation loop
of `getCompressSum`: at least one component is counted, at most all of them,
every strictly earlier prefix sum fails to exceed the target, and if the
loop stopped early then the counted prefix sum exceeds the target (the test
runs after inclusion). -/
theorem usedCountAux_spec (sigma : List ℚ) :
    ∀ (t c : ℚ), sigma ≠ [] →
      1 ≤ usedCountAux sigma t c
      ∧ usedCountAux sigma t c ≤ sigma.length
      ∧ (∀ j, 1 ≤ j → j < usedCountAux sigma t c →
          (sigma.take j).foldl (fun a b => a + b) c ≤ t)
      ∧ (usedCountAux sigma t c < sigma.length →
          t < (sigma.take (usedCountAux sigma t c)).foldl (fun a b => a + b) c) := by
  induction sigma with
  | nil => intro t c h; exact absurd rfl h
  | cons s rest ih =>
      intro t c _
      simp only [usedCountAux]
      split
      · rename_i h
        refine ⟨le_rfl, by simp, ?_, ?_⟩
        · intro j hj1 hj2; omega
        · intro _
          simpa using h
      · rename_i h
        rcases eq_or_ne rest [] with hrest | hrest
        · subst hrest
          simp only [usedCountAux]
          refine ⟨by omega, by simp, ?_, ?_⟩
          · intro j hj1 hj2; omega
          · intro hlt; simp at hlt
        · obtain ⟨ih1, ih2, ih3, ih4⟩ := ih t (c + s) hrest
          refine ⟨by omega, by simp only [List.length_cons]; omega, ?_, ?_⟩
          · intro j hj1 hj2
            match j, hj1 with
            | 1, _ =>
                simpa using not_lt.mp h
            | j2 + 2, _ =>
                have : (j2 + 1) < usedCountAux rest t (c + s) := by omega
                simpa using ih3 (j2 + 1) (by omega) this
          · intro hlt
            have hlt2 : usedCountAux rest t (c + s) < rest.length := by
              simp only [List.length_cons] at hlt; omega
            rw [Nat.add_comm 1 (usedCountAux rest t (c + s))]
            simpa using ih4 hlt2

/-- C3: for every `SVDResult` with non-empty `sigma`, `SVD.getCompressSum`
accumulates components in stored order; it counts at least one component; a
component is followed by further ones exactly while the running prefix sum
has not yet exceeded `percent × total sum of sigma` (the stopping test runs
after inclusion, so the crossing component is included); and it returns the
reconstruction built from exactly the counted components together with that
count. -/
theorem getCompressSum_threshold_behaviour (svd : SVDResult) (percent : ℚ)
    (hL : svd.sigma ≠ []) :
    1 ≤ (getCompressSum svd percent).usedSingularValues
    ∧ (getCompressSum svd percent).usedSingularValues ≤ svd.sigma.length
    ∧ (∀ j, 1 ≤ j → j < (getCompressSum svd percent).usedSingularValues →
        (svd.sigma.take j).foldl (fun a b => a + b) 0
          ≤ (svd.sigma.foldl (fun a b => a + b) 0) * percent)
    ∧ ((getCompressSum svd percent).usedSingularValues < svd.sigma.length →
        (svd.sigma.foldl (fun a b => a + b) 0) * percent
          < (svd.sigma.take ((getCompressSum svd percent).usedSingularValues)).foldl
              (fun a b => a + b) 0)
    ∧ (getCompressSum svd percent).matrix
        = reconstructClamped svd ((getCompressSum svd percent).usedSingularValues) := by
  have hcount : (getCompressSum svd percent).usedSingularValues
      = usedCountAux svd.sigma ((svd.sigma.foldl (fun a b => a + b) 0) * percent) 0 := rfl
  obtain ⟨h1, h2, h3, h4⟩ :=
    usedCountAux_spec svd.sigma ((svd.sigma.foldl (fun a b => a + b) 0) * percent) 0 hL
  rw [hcount]
  exact ⟨h1, h2, h3, h4, rfl⟩

/-- C3 witness: concrete two-component result at `percent = 1/2`; the first
component (value 3 of total 4) already crosses the target. -/
theorem getCompressSum_threshold_behaviour_witness :
    (([(3 : ℚ), 1] : List ℚ) ≠ [])
    ∧ (1 ≤ (getCompressSum ⟨[[1, 0], [0, 1]], [3, 1], [[1, 0], [0, 1]]⟩ (1/2)).usedSingularValues
      ∧ (getCompressSum ⟨[[1, 0], [0, 1]], [3, 1], [[1, 0], [0, 1]]⟩ (1/2)).usedSingularValues
          ≤ ([(3 : ℚ), 1] : List ℚ).length
      ∧ (∀ j, 1 ≤ j →
          j < (getCompressSum ⟨[[1, 0], [0, 1]], [3, 1], [[1, 0], [0, 1]]⟩ (1/2)).usedSingularValues →
          (([(3 : ℚ), 1] : List ℚ).take j).foldl (fun a b => a + b) 0
            ≤ (([(3 : ℚ), 1] : List ℚ).foldl (fun a b => a + b) 0) * (1/2))
      ∧ ((getCompressSum ⟨[[1, 0], [0, 1]], [3, 1], [[1, 0], [0, 1]]⟩ (1/2)).usedSingularValues
            < ([(3 : ℚ), 1] : List ℚ).length →
          (([(3 : ℚ), 1] : List ℚ).foldl (fun a b => a + b) 0) * (1/2)
            < (([(3 : ℚ), 1] : List ℚ).take
                ((getCompressSum ⟨[[1, 0], [0, 1]], [3, 1], [[1, 0], [0, 1]]⟩ (1/2)).usedSingularValues)).foldl
                (fun a b => a + b) 0)
      ∧ (getCompressSum ⟨[[1, 0], [0, 1]], [3, 1], [[1, 0], [0, 1]]⟩ (1/2)).matrix
          = reconstructClamped ⟨[[1, 0], [0, 1]], [3, 1], [[1, 0], [0, 1]]⟩
              ((getCompressSum ⟨[[1, 0], [0, 1]], [3, 1], [[1, 0], [0, 1]]⟩ (1/2)).usedSingularValues)) :=
  ⟨by simp,
    getCompressSum_threshold_behaviour ⟨[[1, 0], [0, 1]], [3, 1], [[1, 0], [0, 1]]⟩ (1/2)
      (by simp)⟩

/-! ### Claim C1 -/

/-- Reading the sorted values back through the sorted index list gives a
non-increasing list: the stable descending sort behind
`sort((a, b) => b.val - a.val)` puts larger values first. -/
theorem sortIndicesDesc_values_sorted (sigma : List ℚ) :
    List.Pairwise (fun a b : ℚ => b ≤ a)
      ((sortIndicesDesc sigma).map (fun i => sigma.getD i 0)) := by
  unfold sortIndicesDesc
  rw [List.map_map]
  have hmem : ∀ p ∈ (indexPairs sigma).mergeSort (fun a b => decide (b.1 ≤ a.1)),
      sigma.getD p.2 0 = p.1 := by
    intro p hp
    have hp2 : p ∈ indexPairs sigma :=
      (List.mergeSort_perm (indexPairs sigma) _).mem_iff.mp hp
    obtain ⟨idx, _, hidx⟩ := List.mem_map.mp hp2
    rw [← hidx]
  have hcongr :
      ((indexPairs sigma).mergeSort (fun a b => decide (b.1 ≤ a.1))).map
          ((fun i => sigma.getD i 0) ∘ (fun p : ℚ × ℕ => p.2))
        = ((indexPairs sigma).mergeSort (fun a b => decide (b.1 ≤ a.1))).map
            (fun p : ℚ × ℕ => p.1) :=
    List.map_congr_left (fun p hp => hmem p hp)
  rw [hcongr]
  have hsorted := @List.sorted_mergeSort (ℚ × ℕ)
    (fun a b : ℚ × ℕ => decide (b.1 ≤ a.1))
    (fun a b c hab hbc =>
      decide_eq_true (le_trans (of_decide_eq_true hbc) (of_decide_eq_true hab)))
    (fun a b => by
      rcases le_total b.1 a.1 with h | h
      · simp [decide_eq_true h]
      · simp [decide_eq_true h])
    (indexPairs sigma)
  exact hsorted.map (fun p : ℚ × ℕ => p.1)
    (fun a b hab => of_decide_eq_true hab)

/-- Each defaulted read of the raw singular-value list
`eigenV.values.map(val => Math.sqrt(Math.max(0, val)))` is nonnegative
whenever `sqrt` maps nonnegative arguments to nonnegative results (as
`Math.sqrt` does). -/
theorem getD_sqrt_max_nonneg (sqrt : ℚ → ℚ)
    (hs : ∀ x : ℚ, 0 ≤ x → 0 ≤ sqrt x) (vals : List ℚ) (i : ℕ) :
    0 ≤ (vals.map (fun val => sqrt (max 0 val))).getD i 0 := by
  rcases lt_or_ge i (vals.map (fun val => sqrt (max 0 val))).length with hi | hi
  · rw [List.getD_eq_getElem _ _ hi]
    have hlen : i < vals.length := by simpa using hi
    rw [List.getElem_map]
    exact hs _ (le_max_left 0 _)
  · rw [List.getD_eq_default _ _ hi]

/-- C1: for every non-empty, non-ragged matrix, whatever values the random
source draws and for any `sqrt` that is nonnegative on nonnegative arguments
(as `Math.sqrt` is), the `sigma` component of `SVD.decompose` is sorted
non-increasing — both as a pairwise statement and entrywise,
`sigma[i+1] ≤ sigma[i]` — and every entry is nonnegative. -/
theorem decompose_sigma_sorted_nonneg (sqrt : ℚ → ℚ) (rng : ℕ → ℚ) (A : Mat)
    (hs : ∀ x : ℚ, 0 ≤ x → 0 ≤ sqrt x) (hA : A ≠ [])
    (hrag : ∀ row ∈ A, row.length = (A.headD []).length) :
    List.Pairwise (fun a b : ℚ => b ≤ a) (decompose sqrt rng A).sigma
    ∧ (∀ i, i + 1 < (decompose sqrt rng A).sigma.length →
        (decompose sqrt rng A).sigma.getD (i+1) 0
          ≤ (decompose sqrt rng A).sigma.getD i 0)
    ∧ (∀ x ∈ (decompose sqrt rng A).sigma, 0 ≤ x) := by
  have hsig : (decompose sqrt rng A).sigma
      = (sortIndicesDesc (((eigenDecomposition sqrt rng
            (multiplyMatrices (transpose A) A)
            (decomposeMaxEig A.length ((A.headD []).length))
            (decomposeTol A.length ((A.headD []).length))).values).map
          (fun val => sqrt (max 0 val)))).map
        (fun i => (((eigenDecomposition sqrt rng
            (multiplyMatrices (transpose A) A)
            (decomposeMaxEig A.length ((A.headD []).length))
            (decomposeTol A.length ((A.headD []).length))).values).map
          (fun val => sqrt (max 0 val))).getD i 0) := rfl
  have hpair := sortIndicesDesc_values_sorted
    (((eigenDecomposition sqrt rng
        (multiplyMatrices (transpose A) A)
        (decomposeMaxEig A.length ((A.headD []).length))
        (decomposeTol A.length ((A.headD []).length))).values).map
      (fun val => sqrt (max 0 val)))
  refine ⟨?_, ?_, ?_⟩
  · rw [hsig]; exact hpair
  · intro i hi
    have hpair2 : List.Pairwise (fun a b : ℚ => b ≤ a) (decompose sqrt rng A).sigma := by
      rw [hsig]; exact hpair
    have hpg := List.pairwise_iff_get.mp hpair2
    rw [List.getD_eq_getElem _ _ hi,
      List.getD_eq_getElem _ _ (lt_trans (Nat.lt_succ_self i) hi)]
    have hstep := hpg ⟨i, lt_trans (Nat.lt_succ_self i) hi⟩ ⟨i + 1, hi⟩
      (Fin.mk_lt_mk.mpr (Nat.lt_succ_self i))
    simpa [List.get_eq_getElem] using hstep
  · intro x hx
    rw [hsig] at hx
    obtain ⟨idx, _, hidx⟩ := List.mem_map.mp hx
    rw [← hidx]
    exact getD_sqrt_max_nonneg sqrt hs _ idx

/-- C1 witness: the theorem applied to the concrete matrix `[[1]]`, the
constant random stream 3/4 and the everywhere-zero `sqrt` (which is
nonnegative on nonnegative arguments). -/
theorem decompose_sigma_sorted_nonneg_witness :
    ((∀ x : ℚ, 0 ≤ x → 0 ≤ (fun _ : ℚ => (0:ℚ)) x) ∧ ([[(1:ℚ)]] : Mat) ≠ []
      ∧ (∀ row ∈ ([[(1:ℚ)]] : Mat), row.length = (([[(1:ℚ)]] : Mat).headD []).length))
    ∧ (List.Pairwise (fun a b : ℚ => b ≤ a)
        (decompose (fun _ : ℚ => (0:ℚ)) (fun _ : ℕ => (3:ℚ)/4) [[(1:ℚ)]]).sigma
      ∧ (∀ i, i + 1 < (decompose (fun _ : ℚ => (0:ℚ)) (fun _ : ℕ => (3:ℚ)/4) [[(1:ℚ)]]).sigma.length →
          (decompose (fun _ : ℚ => (0:ℚ)) (fun _ : ℕ => (3:ℚ)/4) [[(1:ℚ)]]).sigma.getD (i+1) 0
            ≤ (decompose (fun _ : ℚ => (0:ℚ)) (fun _ : ℕ => (3:ℚ)/4) [[(1:ℚ)]]).sigma.getD i 0)
      ∧ (∀ x ∈ (decompose (fun _ : ℚ => (0:ℚ)) (fun _ : ℕ => (3:ℚ)/4) [[(1:ℚ)]]).sigma, 0 ≤ x)) :=
  ⟨⟨fun _ _ => le_rfl, by simp, by intro row hrow; simp at hrow; subst hrow; rfl⟩,
    decompose_sigma_sorted_nonneg (fun _ : ℚ => (0:ℚ)) (fun _ : ℕ => (3:ℚ)/4) [[(1:ℚ)]]
      (fun _ _ => le_rfl) (by simp)
      (by intro row hrow; simp at hrow; subst hrow; rfl)⟩

/-! ### Claim C9 -/

/-- C9 (amended): if the freshly initialized random vector of a slot has
norm not above the tolerance, normalization is skipped; if additionally the
first power-iteration product `A·v` has norm below the tolerance, the inner
loop exits unconverged on its first iteration, that eigenpair is not found,
and the eigen-decomposition loop over slots terminates early, emitting no
further eigenpairs for any remaining slot.  (Without the additional
condition the slot can still converge: see the counterexample.) -/
theorem eigenLoop_stops_when_doubly_degenerate
    (sqrt : ℚ → ℚ) (tol : ℚ) (rng : ℕ → ℚ) (n fuel offset : ℕ) (A : Mat)
    (vals : List ℚ) (vecs : Mat)
    (h1 : ¬ norm2 sqrt (initVec rng offset n) > tol)
    (h2 : norm2 sqrt (multiplyMatrixVector A (initVec rng offset n)) < tol) :
    eigenLoop sqrt tol rng n (fuel + 1) offset A vals vecs = ⟨vals, vecs⟩ := by
  have hv0 : slotInit sqrt tol rng offset n = initVec rng offset n := by
    unfold slotInit
    rw [if_neg h1]
  have hpow : powerIterLoop sqrt tol A n 200 (initVec rng offset n) 0
      = (initVec rng offset n, 0, false) := by
    rw [show (200 : ℕ) = 199 + 1 from rfl]
    rw [powerIterLoop]
    exact if_pos h2
  rw [eigenLoop, hv0, hpow]
  exact if_pos (Or.inr rfl)

/-- C9 witness for the amended theorem: the all-zero 1×1 matrix with the
constant-1/2 random stream (initial vector `[0]`) and zero `sqrt`. -/
theorem eigenLoop_stops_when_doubly_degenerate_witness :
    ((¬ norm2 (fun _ : ℚ => (0:ℚ)) (initVec (fun _ : ℕ => (1:ℚ)/2) 0 1) > 1/10^10)
      ∧ norm2 (fun _ : ℚ => (0:ℚ))
          (multiplyMatrixVector [[(0:ℚ)]] (initVec (fun _ : ℕ => (1:ℚ)/2) 0 1)) < 1/10^10)
    ∧ eigenLoop (fun _ : ℚ => (0:ℚ)) (1/10^10) (fun _ : ℕ => (1:ℚ)/2) 1 (0 + 1) 0
        [[(0:ℚ)]] [] [] = ⟨[], []⟩ :=
  ⟨⟨by with_unfolding_all decide, by with_unfolding_all decide⟩,
    eigenLoop_stops_when_doubly_degenerate (fun _ : ℚ => (0:ℚ)) (1/10^10)
      (fun _ : ℕ => (1:ℚ)/2) 1 0 0 [[(0:ℚ)]] [] []
      (by with_unfolding_all decide) (by with_unfolding_all decide)⟩

/-- The values IEEE-double `Math.sqrt` returns at the three arguments the C9
counterexample trace reaches; each argument is an exact square of a
rational, where double square roots are exact. -/
def sqrtC9 (q : ℚ) : ℚ :=
  if q = 1/64 then 1/8
  else if q = 4 then 2
  else if q = 256 then 16
  else 0

/-- A `Math.random` draw of `5/8`, making the slot's initial vector `[1/8]`,
whose norm is below a tolerance of `1/4`. -/
def rngC9 : ℕ → ℚ := fun _ => 5/8

/-- C9 counterexample: on the 1×1 matrix `[[16]]` with tolerance `1/4` (the
tolerance is a caller-supplied argument of `eigenDecomposition`), the
freshly initialized vector `[1/8]` has norm `1/8` below the tolerance, so
normalization is skipped — yet the matrix amplifies the unnormalized vector
back above the tolerance (`‖A·v‖ = 2`), the slot converges to the eigenpair
`(16, [1])`, and the eigen-decomposition emits it rather than terminating
with no eigenpairs, contradicting the claim.  (Nothing depends on the size
of the tolerance: at the production tolerance `1e-10` the same trace arises
from a draw of `0.5 - 1e-11` on the matrix `[[20]]`, only with longer digit
strings.) -/
theorem eigenDecomposition_emits_despite_tiny_init :
    norm2 sqrtC9 (initVec rngC9 0 1) < 1/4
    ∧ (eigenDecomposition sqrtC9 rngC9 [[16]] 1 (1/4)).values = [16] := by
  constructor
  · with_unfolding_all decide
  · with_unfolding_all rfl

/-! ### Claim C6 -/

/-- Defaulted indexing into a map over `List.range` evaluates the function. -/
theorem getD_range_map {α : Type} (d : α) (f : ℕ → α) (m k : ℕ) (h : k < m) :
    ((List.range m).map f).getD k d = f k := by
  have hlen : k < ((List.range m).map f).length := by simpa using h
  rw [List.getD_eq_getElem _ _ hlen, List.getElem_map, List.getElem_range]

/-- Reading a row of known length back entry-by-entry reproduces the row. -/
theorem range_map_getD (l : List ℚ) (m : ℕ) (hl : l.length = m) :
    (List.range m).map (fun j => l.getD j 0) = l := by
  apply List.ext_getElem
  · simp [hl]
  · intro j h1 h2
    simp only [List.getElem_map, List.getElem_range]
    exact List.getD_eq_getElem l 0 h2

/-- Column `i` of the transpose of a non-ragged non-empty matrix is row `i`
of the matrix. -/
theorem transpose_column (M : Mat) (m i : ℕ)
    (hrows : ∀ row ∈ M, row.length = m) (hM : M ≠ []) (hi : i < M.length) :
    (transpose M).map (fun row => row.getD i 0) = M.getD i [] := by
  have hrowlen : (M.getD i []).length = m := by
    rw [List.getD_eq_getElem M [] hi]
    exact hrows _ (List.getElem_mem hi)
  have hcols : (M.headD []).length = m := by
    cases M with
    | nil => exact absurd rfl hM
    | cons h t => exact hrows h (List.mem_cons_self h t)
  unfold transpose
  rw [List.map_map]
  have hentry : ∀ j, ((fun row : List ℚ => row.getD i 0) ∘
      (fun j => (List.range M.length).map (fun i2 => (M.getD i2 []).getD j 0))) j
      = (M.getD i []).getD j 0 := by
    intro j
    have hlen : i < ((List.range M.length).map
        (fun i2 => (M.getD i2 []).getD j 0)).length := by simpa using hi
    simp only [Function.comp]
    rw [List.getD_eq_getElem _ _ hlen, List.getElem_map, List.getElem_range]
  calc (List.range (M.headD []).length).map ((fun row : List ℚ => row.getD i 0) ∘
        (fun j => (List.range M.length).map (fun i2 => (M.getD i2 []).getD j 0)))
      = (List.range (M.headD []).length).map (fun j => (M.getD i []).getD j 0) :=
        List.map_congr_left (fun j _ => hentry j)
    _ = M.getD i [] := by rw [hcols]; exact range_map_getD _ m hrowlen

/-- C6 (amended): in `SVD.decompose` of src/svd.js, for `sigma_i` above the
tolerance, column `i` of `U` is exactly `(A·v_i)/sigma_i` with no subsequent
normalization step and no norm guard; for `sigma_i` at or below the
tolerance it is the all-zero vector.  Columns are therefore not re-scaled to
unit length (exact unit length would require `sigma_i` to be an exact square
root, which `Math.sqrt` cannot deliver for non-square eigenvalues: see the
counterexample). -/
theorem decompose_U_column_unnormalized (sqrt : ℚ → ℚ) (rng : ℕ → ℚ) (A : Mat)
    (i : ℕ) (hA : A ≠ []) (hn : (A.headD []).length ≠ 0)
    (hi : i < min A.length ((A.headD []).length)) :
    (decompose sqrt rng A).U.map (fun row => row.getD i 0)
      = if (decompose sqrt rng A).sigma.getD i 0
            > decomposeTol A.length ((A.headD []).length)
        then (multiplyMatrixVector A ((decompose sqrt rng A).V_T.getD i [])).map
            (fun val => val / (decompose sqrt rng A).sigma.getD i 0)
        else List.replicate A.length 0 := by
  set tolv := decomposeTol A.length ((A.headD []).length) with htol
  set eig := eigenDecomposition sqrt rng (multiplyMatrices (transpose A) A)
      (decomposeMaxEig A.length ((A.headD []).length)) tolv with heig
  set sig := eig.values.map (fun val => sqrt (max 0 val)) with hsigraw
  set sortedSigma := (sortIndicesDesc sig).map (fun i2 => sig.getD i2 0) with hss
  set V_T := (sortIndicesDesc sig).map (fun i2 => eig.vectors.getD i2 []) with hvt
  set Urows := (List.range (min A.length ((A.headD []).length))).map (fun i2 =>
    if sortedSigma.getD i2 0 > tolv
    then (multiplyMatrixVector A (V_T.getD i2 [])).map
        (fun val => val / sortedSigma.getD i2 0)
    else List.replicate A.length 0) with hur
  have hdec : decompose sqrt rng A
      = { U := transpose Urows, sigma := sortedSigma, V_T := V_T } := rfl
  rw [hdec]
  dsimp only
  have hlen : ∀ row ∈ Urows, row.length = A.length := by
    intro row hrow
    rw [hur] at hrow
    obtain ⟨k, _, hk⟩ := List.mem_map.mp hrow
    rw [← hk]
    split
    · simp [multiplyMatrixVector]
    · simp
  have hul : Urows.length = min A.length ((A.headD []).length) := by
    rw [hur]; simp
  have hne : Urows ≠ [] := by
    apply List.ne_nil_of_length_pos
    rw [hul]
    have hm : 0 < A.length := List.length_pos.mpr hA
    have hnn : 0 < (A.headD []).length := Nat.pos_of_ne_zero hn
    omega
  have hi2 : i < Urows.length := by rw [hul]; exact hi
  rw [transpose_column Urows A.length i hlen hne hi2]
  rw [hur]
  exact getD_range_map [] _ _ i hi

/-- C6 witness for the amended theorem: the concrete matrix `[[1]]` with the
everywhere-zero `sqrt` and constant random stream; the single singular value
is 0, at or below the tolerance, so the column is the zero vector. -/
theorem decompose_U_column_unnormalized_witness :
    (([[(1:ℚ)]] : Mat) ≠ [] ∧ (([[(1:ℚ)]] : Mat).headD []).length ≠ 0
      ∧ 0 < min ([[(1:ℚ)]] : Mat).length ((([[(1:ℚ)]] : Mat).headD []).length))
    ∧ (decompose (fun _ : ℚ => (0:ℚ)) (fun _ : ℕ => (3:ℚ)/4) [[(1:ℚ)]]).U.map
        (fun row => row.getD 0 0)
      = if (decompose (fun _ : ℚ => (0:ℚ)) (fun _ : ℕ => (3:ℚ)/4) [[(1:ℚ)]]).sigma.getD 0 0
            > decomposeTol ([[(1:ℚ)]] : Mat).length ((([[(1:ℚ)]] : Mat).headD []).length)
        then (multiplyMatrixVector [[(1:ℚ)]]
            ((decompose (fun _ : ℚ => (0:ℚ)) (fun _ : ℕ => (3:ℚ)/4) [[(1:ℚ)]]).V_T.getD 0 [])).map
            (fun val => val / (decompose (fun _ : ℚ => (0:ℚ)) (fun _ : ℕ => (3:ℚ)/4) [[(1:ℚ)]]).sigma.getD 0 0)
        else List.replicate ([[(1:ℚ)]] : Mat).length 0 :=
  ⟨⟨by simp, by simp, by simp⟩,
    decompose_U_column_unnormalized (fun _ : ℚ => (0:ℚ)) (fun _ : ℕ => (3:ℚ)/4)
      [[(1:ℚ)]] 0 (by simp) (by simp) (by simp)⟩

/-- The values IEEE-double `Math.sqrt` returns at the three arguments the C6
counterexample trace reaches: `1/16` and `4` are exact squares; at `2` the
double result is the dyadic `6369051672525773 · 2⁻⁵²` closest to `√2`,
whose square is not `2` (no rational squares to 2). -/
def sqrtC6 (q : ℚ) : ℚ :=
  if q = 1/16 then 1/4
  else if q = 4 then 2
  else if q = 2 then 6369051672525773/4503599627370496
  else 0

/-- A constant `Math.random` draw of `3/4`, making each slot's initial
vector `[1/4]`. -/
def rngC6 : ℕ → ℚ := fun _ => 3/4

/-- C6 counterexample: decomposing the 2×1 matrix `[[1],[1]]` (so `AᵗA =
[[2]]`, eigenvalue 2, `sigma = [Math.sqrt 2]`) yields the first `U` column
`(A·v)/sigma_0 = [1/sqrt 2, 1/sqrt 2]`, whose sum of squared entries is
`2/(Math.sqrt 2)² ≠ 1` and which is not the zero vector: the source emits
the column as-is, with no normalization step and no norm guard, so the
column is neither exactly unit-length nor all-zero, contradicting the
claim. -/
theorem decompose_U_column_not_unit :
    ((decompose sqrtC6 rngC6 [[1],[1]]).U.map (fun row => row.getD 0 0)).foldl
        (fun s x => s + x * x) 0 ≠ 1
    ∧ (decompose sqrtC6 rngC6 [[1],[1]]).U.map (fun row => row.getD 0 0)
        ≠ List.replicate 2 0 := by
  constructor
  · with_unfolding_all decide
  · with_unfolding_all decide

/-! ### Claim C5 -/

/-- The values IEEE-double `Math.sqrt` returns at the three arguments
reached when compressing the 1×1 gray image with pixel value 4 (all are
exact squares: `1/16`, `256 = 16²` from `AᵗA = [[16]]`, and the eigenvalue
`16` itself). -/
def sqrtC5 (q : ℚ) : ℚ :=
  if q = 1/16 then 1/4
  else if q = 256 then 16
  else if q = 16 then 4
  else 0

/-- C5: on the valid 1×1 grayscale pixel buffer `[4,4,4,255]` with
retention 50 and the 'count' policy, `ImageProcessor.compressImage` does not
complete without raising an error.  With `Math.sqrt` behaving exactly (the
trace only reaches perfect squares) and a converging random draw of `3/4`,
the line-494 `getCompressData` call succeeds and the grayscale 'count'
branch then reads `totalSingularValues` (line 495) before its `const`
declaration (line 509), throwing a `ReferenceError`; with a draw of exactly
`1/2` the initial vector is `[0]`, no eigenpair is found, `V_T` is empty,
and the line-494 call itself throws a TypeError at line 170
(`V_T[0].length` on `undefined`) — so the 'count' arm fails either way.  By
contrast the same buffer under the 'sum' policy returns normally, isolating
the failure to the grayscale-'count' path. -/
theorem compressImage_grayscale_count_throws :
    compressImage sqrtC5 (fun _ _ => (3:ℚ)/4)
        ⟨1, 1, [4, 4, 4, 255]⟩ 50 "count"
      = .error .referenceErrorTDZ
    ∧ compressImage (fun _ : ℚ => (0:ℚ)) (fun _ _ => (1:ℚ)/2)
        ⟨1, 1, [4, 4, 4, 255]⟩ 50 "count"
      = .error .typeErrorUndefined
    ∧ (compressImage sqrtC5 (fun _ _ => (3:ℚ)/4)
        ⟨1, 1, [4, 4, 4, 255]⟩ 50 "sum").isOk = true := by
  refine ⟨?_, ?_, ?_⟩
  · with_unfolding_all rfl
  · with_unfolding_all rfl
  · with_unfolding_all rfl
